import Mathlib

/-!
# Verification of `fix_createclaim_calls.py` (AUREUS repository)

Shallow embedding of the single source file `fix_createclaim_calls.py`.
The script performs, for each file in a hard-coded list, one global pass of

  `re.sub(r'createClaim\(([^)]+)"([^"]*)"(\s*)\)(?!\s*,\s*\d+)', replacer, content)`

where `replacer` returns `full_match[:-1] + ', 0)'` when the matched span
contains exactly two commas and returns the span unchanged otherwise, then
writes the file back only when the content changed, and reports per-file
outcomes plus a final count of modified files.

Text is modelled as `List Char`.  The fixed regular expression is embedded
directly, following Python's leftmost, greedy, backtracking semantics for
this particular pattern:
* the literal `createClaim(`;
* group 1 `[^)]+`, greedy, so the engine tries the longest run of
  non-`)` characters first and backtracks by shortening it; since the next
  pattern element is a literal `"`, the viable candidates are exactly the
  positions of `"` characters inside that run, tried from rightmost to
  leftmost, with group 1 required to be nonempty;
* the literal `"`, then group 2 `[^"]*`: greedy, and since the element after
  it is again a literal `"`, its extent is forced to be the maximal run of
  non-`"` characters (shortening it would put a non-`"` character where the
  literal `"` must match), so no backtracking choice arises inside it;
* group 3 `\s*` followed by the literal `)`: forced to the maximal run of
  whitespace for the same reason;
* the negative lookahead `(?!\s*,\s*\d+)` at the position after `)`, whose
  inner pattern likewise has a forced decomposition (maximal whitespace run,
  then `,`, then maximal whitespace run, then at least one digit).
Character classes `\s` and `\d` are modelled by their ASCII parts
(the inputs of interest are ASCII Solidity test sources).
`re.sub` scans left to right, replacing non-overlapping matches and resuming
after each replaced span; on failure at a position it advances one character.
-/

namespace Aureus

/-- ASCII part of Python's `\s` class: `' '`, `\t`, `\n`, `\r`, `\x0b`, `\x0c`. -/
def isSpaceCh (c : Char) : Bool :=
  c = ' ' || c = '\t' || c = '\n' || c = '\r' || c = '\x0b' || c = '\x0c'

/-- ASCII part of Python's `\d` class. -/
def isDigitCh (c : Char) : Bool :=
  '0' ≤ c && c ≤ '9'

/-- The literal `createClaim(` that heads the pattern. -/
def headerChars : List Char := "createClaim(".toList

/-- `startsWith pat s`: the text `s` begins with the literal `pat`. -/
def startsWith : List Char → List Char → Bool
  | [], _ => true
  | _ :: _, [] => false
  | c :: p, d :: s => c = d && startsWith p s

/-- The negative lookahead `(?!\s*,\s*\d+)`, as a positive test: does
`\s*,\s*\d+` match at the start of `t`?  The whitespace runs are forced
(see the header comment), so the test is deterministic. -/
def lookaheadNum (t : List Char) : Bool :=
  match t.dropWhile isSpaceCh with
  | ',' :: t2 =>
    match t2.dropWhile isSpaceCh with
    | c :: _ => isDigitCh c
    | [] => false
  | _ => false

/-- Matching of `"([^"]*)"(\s*)\)(?!\s*,\s*\d+)` minus its leading quote:
given the text `r` that follows the literal `"` closing group 1's span,
consume group 2 (the forced maximal run of non-`"` characters), the literal
`"`, group 3 (the forced maximal whitespace run) and the literal `)`, then
apply the negative lookahead.  Returns the consumed characters and the
remaining text. -/
def matchAfterQuote (r : List Char) : Option (List Char × List Char) :=
  let g2 := r.takeWhile (fun ch => ch ≠ '"')
  match r.dropWhile (fun ch => ch ≠ '"') with
  | '"' :: r3 =>
    let ws := r3.takeWhile isSpaceCh
    match r3.dropWhile isSpaceCh with
    | ')' :: r5 =>
      if lookaheadNum r5 then none
      else some (g2 ++ '"' :: (ws ++ [')']), r5)
    | _ => none
  | _ => none

/-- All decompositions `l = u ++ '"' :: v`, listed with `u` of increasing
length: one entry per occurrence of `"` in `l`. -/
def ascSplits : List Char → List (List Char × List Char)
  | [] => []
  | c :: cs =>
    (if c = '"' then [(([] : List Char), cs)] else []) ++
      (ascSplits cs).map (fun p => (c :: p.1, p.2))

/-- Backtracking over group 1 `[^)]+`: the candidate splits (rightmost `"`
first, i.e. longest group 1 first) are tried in order; `u` is the candidate
for group 1 (required nonempty by `+`), `v` the rest of the non-`)` run,
and `tl` the text from the first `)` on.  First success wins. -/
def tryGroup1 (tl : List Char) : List (List Char × List Char) → Option (List Char × List Char)
  | [] => none
  | (u, v) :: cands =>
    if u = [] then tryGroup1 tl cands
    else
      match matchAfterQuote (v ++ tl) with
      | some (consumed, r) => some (u ++ '"' :: consumed, r)
      | none => tryGroup1 tl cands

/-- Attempt to match the whole pattern
`createClaim\(([^)]+)"([^"]*)"(\s*)\)(?!\s*,\s*\d+)` at the start of `s`.
On success returns the matched span and the remaining text. -/
def matchAt (s : List Char) : Option (List Char × List Char) :=
  if startsWith headerChars s then
    let t := s.drop headerChars.length
    let run := t.takeWhile (fun ch => ch ≠ ')')
    let tl := t.dropWhile (fun ch => ch ≠ ')')
    match tryGroup1 tl (ascSplits run).reverse with
    | some (body, rest) => some (headerChars ++ body, rest)
    | none => none
  else none

/-- `replacer` from the source: if the full match contains exactly two
commas, replace its final character (the closing parenthesis) by `, 0)`;
otherwise return the match unchanged. -/
def replacer (m : List Char) : List Char :=
  if m.count ',' = 2 then m.dropLast ++ [',', ' ', '0', ')'] else m

/-- The `re.sub` scan: try to match at each position from left to right,
replace non-overlapping matches via `replacer` and resume after the span;
advance one character on failure.  `fuel` bounds the recursion; every match
consumes at least one character, so `fuel = s.length` is always enough. -/
def re_sub_aux : Nat → List Char → List Char
  | 0, s => s
  | _ + 1, [] => []
  | fuel + 1, c :: s' =>
    match matchAt (c :: s') with
    | some (m, rest) => replacer m ++ re_sub_aux fuel rest
    | none => c :: re_sub_aux fuel s'

/-- `re.sub(pattern, replacer, content)` from the source. -/
def re_sub (s : List Char) : List Char := re_sub_aux s.length s

/-! ## The file-processing layer (`fix_createclaim_in_file` and `main`)

The filesystem is modelled as a partial map from paths to text
(`none` = the path does not exist).  Console output is modelled as a list
of abstract messages mirroring the four `print` calls of the source. -/

/-- A file path. -/
def Path := String

instance : DecidableEq Path := fun a b => String.decEq a b

/-- Abstract filesystem: contents of each existing path. -/
def FS := Path → Option (List Char)

/-- Overwriting one file. -/
def writeFile (fs : FS) (p : Path) (c : List Char) : FS :=
  fun q => if q = p then some c else fs q

/-- The four console messages of the script, in abstract form. -/
inductive Msg
  | fixed (p : Path)
  | noChanges (p : Path)
  | notFound (p : Path)
  | summary (n : Nat)
deriving DecidableEq

/-- Is a message the `✓ Fixed {filepath}` report? -/
def Msg.isFixed : Msg → Bool
  | .fixed _ => true
  | _ => false

/-- `fix_createclaim_in_file`: read the file, apply the substitution and,
exactly when the result differs from the original, write it back; the
returned flag says whether the file was modified.  (`main` only calls it on
existing paths; on a missing path the source would raise, which is outside
the modelled fragment, so that case is mapped to a no-op here.) -/
def fix_createclaim_in_file (fs : FS) (p : Path) : FS × Bool :=
  match fs p with
  | none => (fs, false)
  | some content =>
    let content' := re_sub content
    if content' ≠ content then (writeFile fs p content', true)
    else (fs, false)

/-- The hard-coded `test_files` list of `main`. -/
def test_files : List Path :=
  ["contracts/test/SkillClaim.t.sol",
   "contracts/test/DoS.t.sol",
   "contracts/test/Integration.t.sol",
   "contracts/test/Performance.t.sol",
   "contracts/test/LargeDataset.t.sol",
   "contracts/test/SkillClaim.pagination.t.sol"]

/-- The loop of `main` over a path list: per existing path run
`fix_createclaim_in_file`, report `fixed` or `noChanges` and count the
modified files; per missing path report `notFound` and continue.  Returns
the final filesystem, the console log and `fixed_count`. -/
def processPaths (fs : FS) : List Path → FS × List Msg × Nat
  | [] => (fs, [], 0)
  | p :: ps =>
    match fs p with
    | some _ =>
      let r := fix_createclaim_in_file fs p
      let m := if r.2 then Msg.fixed p else Msg.noChanges p
      let rest := processPaths r.1 ps
      (rest.1, m :: rest.2.1, (if r.2 then 1 else 0) + rest.2.2)
    | none =>
      let rest := processPaths fs ps
      (rest.1, Msg.notFound p :: rest.2.1, rest.2.2)

/-- `main`: process the hard-coded list, then print the summary line. -/
def main (fs : FS) : FS × List Msg × Nat :=
  let r := processPaths fs test_files
  (r.1, r.2.1 ++ [Msg.summary r.2.2], r.2.2)

/-! ## Symbolic call shapes

`mkCall a b c` is the text `createClaim("a", "b", "c")` and
`mkFixedCall a b c n` the text `createClaim("a", "b", "c", n)`, for
argument texts `a`, `b`, `c` and numeral text `n`.  `cleanArg` captures the
benign argument texts of the intended inputs: no quote, parenthesis or
comma characters (the blind spots the spec itself flags). -/

/-- An argument text containing none of the regex's structural characters. -/
def cleanArg (l : List Char) : Prop :=
  ∀ ch ∈ l, ch ≠ '"' ∧ ch ≠ '(' ∧ ch ≠ ')' ∧ ch ≠ ','

instance (l : List Char) : Decidable (cleanArg l) := by
  unfold cleanArg
  infer_instance

/-- `"a", "b", "c` — the three arguments up to but excluding the closing
quote of the third. -/
def argsPrefix (a b c : List Char) : List Char :=
  '"' :: (a ++ '"' :: ',' :: ' ' :: '"' :: (b ++ '"' :: ',' :: ' ' :: '"' :: c))

/-- The text `createClaim("a", "b", "c")`. -/
def mkCall (a b c : List Char) : List Char :=
  headerChars ++ (argsPrefix a b c ++ ['"', ')'])

/-- The text `createClaim("a", "b", "c", n)`. -/
def mkFixedCall (a b c n : List Char) : List Char :=
  headerChars ++ (argsPrefix a b c ++ '"' :: ',' :: ' ' :: (n ++ [')']))

/-! ## Example texts from the specification -/

/-- The spec's end-to-end example input `createClaim("alice", "skillA", "proof1")`. -/
def exampleUnfixed : List Char := "createClaim(\"alice\", \"skillA\", \"proof1\")".toList

/-- The spec's end-to-end example output `createClaim("alice", "skillA", "proof1", 0)`. -/
def exampleFixed0 : List Char := "createClaim(\"alice\", \"skillA\", \"proof1\", 0)".toList

/-- The spec's already-fixed example `createClaim("alice", "skillA", "proof1", 5)`. -/
def exampleFixed5 : List Char := "createClaim(\"alice\", \"skillA\", \"proof1\", 5)".toList

/-! ## Structural lemmas about the matcher -/

theorem startsWith_ex : ∀ {p s : List Char}, startsWith p s = true → ∃ t, s = p ++ t := by
  intro p
  induction p with
  | nil => intro s _; exact ⟨s, rfl⟩
  | cons c p ih =>
    intro s h
    cases s with
    | nil => simp [startsWith] at h
    | cons d s' =>
      simp only [startsWith, Bool.and_eq_true, decide_eq_true_eq] at h
      obtain ⟨t, ht⟩ := ih h.2
      exact ⟨t, by simp [h.1, ht]⟩

theorem startsWith_self (p t : List Char) : startsWith p (p ++ t) = true := by
  induction p with
  | nil => rfl
  | cons c p ih => simp [startsWith, ih]

/-- Decomposition of a successful `matchAfterQuote`. -/
theorem matchAfterQuote_some {r consumed rest : List Char}
    (h : matchAfterQuote r = some (consumed, rest)) :
    consumed ++ rest = r ∧
      ∃ g2 ws, consumed = g2 ++ '"' :: (ws ++ [')']) ∧
        (∀ ch ∈ g2, ch ≠ '"') ∧ (∀ ch ∈ ws, isSpaceCh ch) ∧
        lookaheadNum rest = false := by
  simp only [matchAfterQuote] at h
  split at h
  case _ r3 hdrop =>
    split at h
    case _ r5 hdrop2 =>
      split at h
      · exact absurd h (by simp)
      case _ hla =>
        simp only [Option.some.injEq, Prod.mk.injEq] at h
        obtain ⟨hc, hr⟩ := h
        refine ⟨?_, r.takeWhile (fun ch => ch ≠ '"'), r3.takeWhile isSpaceCh, ?_, ?_, ?_, ?_⟩
        · have h1 := List.takeWhile_append_dropWhile (fun ch => decide (ch ≠ '"')) r
          have h2 := List.takeWhile_append_dropWhile isSpaceCh r3
          rw [← hc, ← hr]
          conv_rhs => rw [← h1, hdrop]
          conv_rhs => rw [← h2, hdrop2]
          simp
        · exact hc.symm
        · intro ch hch
          have := List.mem_takeWhile_imp hch
          simpa using this
        · intro ch hch
          exact List.mem_takeWhile_imp hch
        · rw [← hr]
          simpa using hla
    · exact absurd h (by simp)
  · exact absurd h (by simp)

/-- Every entry of `ascSplits l` really splits `l` at a quote. -/
theorem ascSplits_mem : ∀ {l : List Char} {u v : List Char},
    (u, v) ∈ ascSplits l → l = u ++ '"' :: v := by
  intro l
  induction l with
  | nil => intro u v h; simp [ascSplits] at h
  | cons c cs ih =>
    intro u v h
    simp only [ascSplits, List.mem_append, List.mem_map] at h
    rcases h with h | ⟨q, hq, hqe⟩
    · split at h
      case _ hc =>
        simp only [List.mem_singleton, Prod.mk.injEq] at h
        obtain ⟨rfl, rfl⟩ := h
        simp [hc]
      · simp at h
    · simp only [Prod.mk.injEq] at hqe
      obtain ⟨h1, h2⟩ := hqe
      have hcs := ih (u := q.1) (v := q.2) (by simpa using hq)
      rw [← h1, ← h2, hcs]
      rfl

/-- Decomposition of a successful `tryGroup1`. -/
theorem tryGroup1_some : ∀ {cands : List (List Char × List Char)}
    {tl body rest : List Char}, tryGroup1 tl cands = some (body, rest) →
    ∃ u v consumed, (u, v) ∈ cands ∧ u ≠ [] ∧
      matchAfterQuote (v ++ tl) = some (consumed, rest) ∧
      body = u ++ '"' :: consumed := by
  intro cands
  induction cands with
  | nil => intro tl body rest h; simp [tryGroup1] at h
  | cons cand cands ih =>
    intro tl body rest h
    obtain ⟨u, v⟩ := cand
    simp only [tryGroup1] at h
    split at h
    case _ hu =>
      obtain ⟨u', v', consumed, hm, hne, hq, hb⟩ := ih h
      exact ⟨u', v', consumed, List.mem_cons_of_mem _ hm, hne, hq, hb⟩
    case _ hu =>
      split at h
      case _ consumed r hq =>
        simp only [Option.some.injEq, Prod.mk.injEq] at h
        obtain ⟨hb, hr⟩ := h
        exact ⟨u, v, consumed, List.mem_cons_self _ _, hu, hr ▸ hq, hb.symm⟩
      case _ hq =>
        obtain ⟨u', v', consumed, hm, hne, hq', hb⟩ := ih h
        exact ⟨u', v', consumed, List.mem_cons_of_mem _ hm, hne, hq', hb⟩

/-- Decomposition of a successful `matchAt`: the span plus the rest
reconstitute the text, the span is nonempty, it ends with a quote, a
whitespace run and a closing parenthesis, and the lookahead test fails on
the rest. -/
theorem matchAt_some {s m rest : List Char} (h : matchAt s = some (m, rest)) :
    s = m ++ rest ∧ m ≠ [] ∧
      (∃ pre ws, m = pre ++ '"' :: (ws ++ [')']) ∧ (∀ ch ∈ ws, isSpaceCh ch)) ∧
      lookaheadNum rest = false := by
  simp only [matchAt] at h
  split at h
  case _ hsw =>
    obtain ⟨t0, ht0⟩ := startsWith_ex hsw
    subst ht0
    rw [List.drop_left] at h
    split at h
    case _ body rest' htry =>
      simp only [Option.some.injEq, Prod.mk.injEq] at h
      obtain ⟨hb, hr⟩ := h
      obtain ⟨u, v, consumed, hmem, hune, hq, hbody⟩ := tryGroup1_some htry
      obtain ⟨happ, g2, ws, hcons, _, hws, hla⟩ := matchAfterQuote_some hq
      have hsplit := List.takeWhile_append_dropWhile (fun ch => decide (ch ≠ ')')) t0
      have hrunsplit := ascSplits_mem (List.mem_reverse.mp hmem)
      refine ⟨?_, ?_, ⟨headerChars ++ u ++ '"' :: g2, ws, ?_, hws⟩, ?_⟩
      · rw [← hb, hbody, ← hr]
        conv_lhs => rw [← hsplit, hrunsplit]
        simp only [List.append_assoc, List.cons_append]
        rw [happ]
      · rw [← hb, hbody]
        intro hcontra
        simp [headerChars] at hcontra
      · rw [← hb, hbody, hcons]
        simp
      · rw [← hr]; exact hla
    · exact absurd h (by simp)
  · exact absurd h (by simp)

/-- A successful match consumes at least one character. -/
theorem matchAt_rest_lt {s m rest : List Char} (h : matchAt s = some (m, rest)) :
    rest.length < s.length := by
  obtain ⟨happ, hne, _, _⟩ := matchAt_some h
  rw [happ, List.length_append]
  have : 0 < m.length := List.length_pos.mpr hne
  omega

/-- `re_sub_aux` does not depend on the fuel once it covers the length. -/
theorem re_sub_aux_congr : ∀ (f1 f2 : Nat) (s : List Char),
    s.length ≤ f1 → s.length ≤ f2 → re_sub_aux f1 s = re_sub_aux f2 s := by
  intro f1
  induction f1 with
  | zero =>
    intro f2 s h1 _
    have : s = [] := List.length_eq_zero.mp (Nat.le_zero.mp h1)
    subst this
    cases f2 <;> rfl
  | succ f1 ih =>
    intro f2 s h1 h2
    cases s with
    | nil => cases f2 <;> rfl
    | cons c s' =>
      cases f2 with
      | zero => simp at h2
      | succ f2 =>
        cases hm : matchAt (c :: s') with
        | some pr =>
          obtain ⟨m, rest⟩ := pr
          have hlt := matchAt_rest_lt hm
          simp only [List.length_cons] at h1 h2 hlt
          simp only [re_sub_aux, hm]
          rw [ih f2 rest (by omega) (by omega)]
        | none =>
          simp only [List.length_cons] at h1 h2
          simp only [re_sub_aux, hm]
          rw [ih f2 s' (by omega) (by omega)]

theorem re_sub_eq_aux {s : List Char} {fuel : Nat} (h : s.length ≤ fuel) :
    re_sub s = re_sub_aux fuel s :=
  re_sub_aux_congr s.length fuel s (Nat.le_refl _) h

/-- One step of the scan at a successful match. -/
theorem re_sub_match_step {s m rest : List Char} (h : matchAt s = some (m, rest)) :
    re_sub s = replacer m ++ re_sub rest := by
  obtain ⟨happ, hne, _, _⟩ := matchAt_some h
  cases s with
  | nil =>
    have := happ.symm
    rw [List.append_eq_nil] at this
    exact absurd this.1 hne
  | cons c s' =>
    have hlt := matchAt_rest_lt h
    simp only [List.length_cons] at hlt
    rw [re_sub]
    simp only [List.length_cons, re_sub_aux, h]
    rw [← re_sub_eq_aux (by omega)]

/-- One step of the scan at a failed position. -/
theorem re_sub_nomatch_step {c : Char} {s' : List Char} (h : matchAt (c :: s') = none) :
    re_sub (c :: s') = c :: re_sub s' := by
  rw [re_sub]
  simp only [List.length_cons, re_sub_aux, h]
  rfl

/-- Texts none of whose suffixes match are left unchanged by the scan. -/
theorem re_sub_of_no_match : ∀ {s : List Char},
    (∀ t, t <:+ s → matchAt t = none) → re_sub s = s := by
  have aux : ∀ (fuel : Nat) (s : List Char),
      (∀ t, t <:+ s → matchAt t = none) → re_sub_aux fuel s = s := by
    intro fuel
    induction fuel with
    | zero => intro s _; rfl
    | succ fuel ih =>
      intro s h
      cases s with
      | nil => rfl
      | cons c s' =>
        simp only [re_sub_aux, h (c :: s') List.suffix_rfl]
        rw [ih s' (fun t ht => h t (ht.trans (List.suffix_cons c s')))]
  intro s h
  exact aux s.length s h

/-! ## Symbolic evaluation of the matcher on clean call shapes -/

theorem cleanArg_cons {ch : Char} {l : List Char} (h : cleanArg (ch :: l)) :
    (ch ≠ '"' ∧ ch ≠ '(' ∧ ch ≠ ')' ∧ ch ≠ ',') ∧ cleanArg l :=
  ⟨h ch (List.mem_cons_self _ _), fun x hx => h x (List.mem_cons_of_mem _ hx)⟩

theorem argsPrefix_ne_paren {a b c : List Char} (ha : cleanArg a) (hb : cleanArg b)
    (hc : cleanArg c) : ∀ ch ∈ argsPrefix a b c, ch ≠ ')' := by
  intro ch h
  simp only [argsPrefix, List.mem_cons, List.mem_append] at h
  rcases h with rfl | h
  · decide
  rcases h with h | h
  · exact (ha ch h).2.2.1
  rcases h with rfl | h
  · decide
  rcases h with rfl | h
  · decide
  rcases h with rfl | h
  · decide
  rcases h with rfl | h
  · decide
  rcases h with h | h
  · exact (hb ch h).2.2.1
  rcases h with rfl | h
  · decide
  rcases h with rfl | h
  · decide
  rcases h with rfl | h
  · decide
  rcases h with rfl | h
  · decide
  exact (hc ch h).2.2.1

/-- `takeWhile (· ≠ ')')` passes over a run of non-`)` characters. -/
theorem takeWhile_np_seg {x : List Char} (hx : ∀ ch ∈ x, ch ≠ ')') (y : List Char) :
    (x ++ y).takeWhile (fun ch => ch ≠ ')') = x ++ y.takeWhile (fun ch => ch ≠ ')') :=
  List.takeWhile_append_of_pos (fun a h => by simpa using hx a h)

theorem dropWhile_np_seg {x : List Char} (hx : ∀ ch ∈ x, ch ≠ ')') (y : List Char) :
    (x ++ y).dropWhile (fun ch => ch ≠ ')') = y.dropWhile (fun ch => ch ≠ ')') :=
  List.dropWhile_append_of_pos (fun a h => by simpa using hx a h)

theorem run_mkFixedCall {a b c n : List Char} (ha : cleanArg a) (hb : cleanArg b)
    (hc : cleanArg c) (hn : cleanArg n) :
    (argsPrefix a b c ++ '"' :: ',' :: ' ' :: (n ++ [')'])).takeWhile (fun ch => ch ≠ ')') =
        argsPrefix a b c ++ '"' :: ',' :: ' ' :: n ∧
      (argsPrefix a b c ++ '"' :: ',' :: ' ' :: (n ++ [')'])).dropWhile (fun ch => ch ≠ ')') =
        [')'] := by
  have hargs := argsPrefix_ne_paren ha hb hc
  have hn' : ∀ ch ∈ n, ch ≠ ')' := fun ch h => (hn ch h).2.2.1
  constructor
  · rw [takeWhile_np_seg hargs]
    rw [List.takeWhile_cons_of_pos (by decide), List.takeWhile_cons_of_pos (by decide),
      List.takeWhile_cons_of_pos (by decide), takeWhile_np_seg hn',
      List.takeWhile_cons_of_neg (by decide)]
    simp
  · rw [dropWhile_np_seg hargs]
    rw [List.dropWhile_cons_of_pos (by decide), List.dropWhile_cons_of_pos (by decide),
      List.dropWhile_cons_of_pos (by decide), dropWhile_np_seg hn',
      List.dropWhile_cons_of_neg (by decide)]

theorem run_mkCall {a b c : List Char} (ha : cleanArg a) (hb : cleanArg b)
    (hc : cleanArg c) :
    (argsPrefix a b c ++ ['"', ')']).takeWhile (fun ch => ch ≠ ')') =
        argsPrefix a b c ++ ['"'] ∧
      (argsPrefix a b c ++ ['"', ')']).dropWhile (fun ch => ch ≠ ')') = [')'] := by
  have hargs := argsPrefix_ne_paren ha hb hc
  constructor
  · rw [takeWhile_np_seg hargs]
    rw [List.takeWhile_cons_of_pos (by decide), List.takeWhile_cons_of_neg (by decide)]
  · rw [dropWhile_np_seg hargs]
    rw [List.dropWhile_cons_of_pos (by decide), List.dropWhile_cons_of_neg (by decide)]

/-- If the text after the candidate quote contains no quote at all, the
forced literal `"` of the pattern cannot be found: no match. -/
theorem matchAfterQuote_no_quote {r : List Char} (h : ∀ ch ∈ r, ch ≠ '"') :
    matchAfterQuote r = none := by
  have hd : r.dropWhile (fun ch => ch ≠ '"') = [] := by
    rw [List.dropWhile_eq_nil_iff]
    intro a ha
    simpa using h a ha
  simp only [matchAfterQuote, hd]

/-- If the closing quote found by group 2 is immediately followed by a
comma, the forced `\s*\)` cannot match: no match. -/
theorem matchAfterQuote_comma {x X : List Char} (hx : ∀ ch ∈ x, ch ≠ '"') :
    matchAfterQuote (x ++ '"' :: (',' :: X)) = none := by
  have hd : (x ++ '"' :: (',' :: X)).dropWhile (fun ch => ch ≠ '"') = '"' :: (',' :: X) := by
    rw [List.dropWhile_append_of_pos (fun a ha => by simpa using hx a ha),
      List.dropWhile_cons_of_neg (by decide)]
  simp only [matchAfterQuote, hd]
  have hsp : (',' :: X).dropWhile isSpaceCh = ',' :: X :=
    List.dropWhile_cons_of_neg (by decide)
  simp only [hsp]
  split
  case _ r5 heq => simp at heq
  · rfl

/-- After the closing quote, a run of non-`)` characters leading to another
quote: the first non-whitespace character is never `)`, so no match. -/
theorem head_dropWhile_space_ne_paren {y X : List Char} (hy : ∀ ch ∈ y, ch ≠ ')') :
    ((y ++ '"' :: X).dropWhile isSpaceCh).head? ≠ some ')' := by
  induction y with
  | nil =>
    rw [List.nil_append, List.dropWhile_cons_of_neg (by decide)]
    simp
  | cons d y ih =>
    by_cases hd : isSpaceCh d
    · rw [List.cons_append, List.dropWhile_cons_of_pos hd]
      exact ih (fun ch h => hy ch (List.mem_cons_of_mem _ h))
    · rw [List.cons_append, List.dropWhile_cons_of_neg hd]
      simp only [List.head?_cons, ne_eq, Option.some.injEq]
      exact hy d (List.mem_cons_self _ _)

theorem matchAfterQuote_inner {x y X : List Char} (hx : ∀ ch ∈ x, ch ≠ '"')
    (hy : ∀ ch ∈ y, ch ≠ ')') :
    matchAfterQuote (x ++ '"' :: (y ++ '"' :: X)) = none := by
  have hd : (x ++ '"' :: (y ++ '"' :: X)).dropWhile (fun ch => ch ≠ '"') =
      '"' :: (y ++ '"' :: X) := by
    rw [List.dropWhile_append_of_pos (fun a ha => by simpa using hx a ha),
      List.dropWhile_cons_of_neg (by decide)]
  simp only [matchAfterQuote, hd]
  have hhead := head_dropWhile_space_ne_paren (X := X) hy
  split
  case _ r5 heq => exact absurd (by rw [heq]; rfl) hhead
  · rfl

/-- The successful case: after the candidate quote comes the non-quote run
`x`, the closing quote and the final `)` (with nothing after it, so the
lookahead passes). -/
theorem matchAfterQuote_success {x : List Char} (hx : ∀ ch ∈ x, ch ≠ '"') :
    matchAfterQuote (x ++ '"' :: [')']) = some (x ++ ['"', ')'], []) := by
  have hd : (x ++ '"' :: [')']).dropWhile (fun ch => ch ≠ '"') = '"' :: [')'] := by
    rw [List.dropWhile_append_of_pos (fun a ha => by simpa using hx a ha),
      List.dropWhile_cons_of_neg (by decide)]
  have ht : (x ++ '"' :: [')']).takeWhile (fun ch => ch ≠ '"') = x := by
    rw [List.takeWhile_append_of_pos (fun a ha => by simpa using hx a ha),
      List.takeWhile_cons_of_neg (by decide), List.append_nil]
  simp only [matchAfterQuote, hd, ht]
  have hsp : ([')'] : List Char).dropWhile isSpaceCh = [')'] :=
    List.dropWhile_cons_of_neg (by decide)
  have hsp2 : ([')'] : List Char).takeWhile isSpaceCh = [] :=
    List.takeWhile_cons_of_neg (by decide)
  simp only [hsp, hsp2]
  simp [lookaheadNum]

/-- `ascSplits` of a quote-headed list. -/
theorem ascSplits_quote_cons (X : List Char) :
    ascSplits ('"' :: X) = ([], X) :: (ascSplits X).map (fun p => ('"' :: p.1, p.2)) := by
  simp [ascSplits]

/-- `ascSplits` of a list with no quotes is empty. -/
theorem ascSplits_no_quote : ∀ {l : List Char}, (∀ ch ∈ l, ch ≠ '"') → ascSplits l = [] := by
  intro l
  induction l with
  | nil => intro _; rfl
  | cons d l ih =>
    intro h
    have hd : d ≠ '"' := h d (List.mem_cons_self _ _)
    simp [ascSplits, hd, ih (fun ch hch => h ch (List.mem_cons_of_mem _ hch))]

/-- `ascSplits` across a quote-free prefix followed by a quote. -/
theorem ascSplits_block : ∀ {x : List Char}, (∀ ch ∈ x, ch ≠ '"') → ∀ (X : List Char),
    ascSplits (x ++ '"' :: X) =
      (x, X) :: (ascSplits X).map (fun p => (x ++ '"' :: p.1, p.2)) := by
  intro x
  induction x with
  | nil => intro _ X; simp [ascSplits_quote_cons]
  | cons d x ih =>
    intro h X
    have hd : d ≠ '"' := h d (List.mem_cons_self _ _)
    have hx : ∀ ch ∈ x, ch ≠ '"' := fun ch hch => h ch (List.mem_cons_of_mem _ hch)
    have hrw := ih hx X
    simp only [List.cons_append, ascSplits, if_neg hd, List.nil_append,
      List.map_cons, List.map_map, List.append_eq]
    rw [hrw]
    simp [Function.comp]

/-- Reduction of `matchAt` at a text that begins with the header literal. -/
theorem matchAt_header (w : List Char) :
    matchAt (headerChars ++ w) =
      (match tryGroup1 (w.dropWhile (fun ch => ch ≠ ')'))
          (ascSplits (w.takeWhile (fun ch => ch ≠ ')'))).reverse with
      | some (body, rest) => some (headerChars ++ body, rest)
      | none => none) := by
  simp only [matchAt, startsWith_self, List.drop_left, if_true]

/-- All six quote-splits of the run `"a", "b", "c` ++ `"` ++ tail, in
ascending group-1 length, when the three argument texts and the tail are
quote-free. -/
theorem ascSplits_args_chain {a b c : List Char} (ha : cleanArg a) (hb : cleanArg b)
    (hc : cleanArg c) (tail : List Char) (htail : ∀ ch ∈ tail, ch ≠ '"') :
    ascSplits ('"' :: (a ++ '"' :: ',' :: ' ' :: '"' ::
        (b ++ '"' :: ',' :: ' ' :: '"' :: (c ++ '"' :: tail)))) =
      [ (([] : List Char),
          a ++ '"' :: ',' :: ' ' :: '"' :: (b ++ '"' :: ',' :: ' ' :: '"' :: (c ++ '"' :: tail))),
        ('"' :: a, ',' :: ' ' :: '"' :: (b ++ '"' :: ',' :: ' ' :: '"' :: (c ++ '"' :: tail))),
        ('"' :: (a ++ ['"', ',', ' ']), b ++ '"' :: ',' :: ' ' :: '"' :: (c ++ '"' :: tail)),
        ('"' :: (a ++ '"' :: ',' :: ' ' :: '"' :: b), ',' :: ' ' :: '"' :: (c ++ '"' :: tail)),
        ('"' :: (a ++ '"' :: ',' :: ' ' :: '"' :: (b ++ ['"', ',', ' '])), c ++ '"' :: tail),
        ('"' :: (a ++ '"' :: ',' :: ' ' :: '"' :: (b ++ '"' :: ',' :: ' ' :: '"' :: c)), tail) ] := by
  have ha' : ∀ ch ∈ a, ch ≠ '"' := fun ch h => (ha ch h).1
  have hb' : ∀ ch ∈ b, ch ≠ '"' := fun ch h => (hb ch h).1
  have hc' : ∀ ch ∈ c, ch ≠ '"' := fun ch h => (hc ch h).1
  have s5 : ascSplits (c ++ '"' :: tail) =
      [(c, tail)] := by
    rw [ascSplits_block hc' tail, ascSplits_no_quote htail]
    rfl
  have s4 : ascSplits (',' :: ' ' :: '"' :: (c ++ '"' :: tail)) =
      ([',', ' '], c ++ '"' :: tail) ::
        (ascSplits (c ++ '"' :: tail)).map
          (fun p => (',' :: ' ' :: '"' :: p.1, p.2)) :=
    ascSplits_block (x := [',', ' ']) (by decide) _
  have s3 : ascSplits (b ++ '"' :: ',' :: ' ' :: '"' :: (c ++ '"' :: tail)) =
      (b, ',' :: ' ' :: '"' :: (c ++ '"' :: tail)) ::
        (ascSplits (',' :: ' ' :: '"' :: (c ++ '"' :: tail))).map
          (fun p => (b ++ '"' :: p.1, p.2)) :=
    ascSplits_block hb' _
  have s2 : ascSplits (',' :: ' ' :: '"' :: (b ++ '"' :: ',' :: ' ' :: '"' :: (c ++ '"' :: tail))) =
      ([',', ' '], b ++ '"' :: ',' :: ' ' :: '"' :: (c ++ '"' :: tail)) ::
        (ascSplits (b ++ '"' :: ',' :: ' ' :: '"' :: (c ++ '"' :: tail))).map
          (fun p => (',' :: ' ' :: '"' :: p.1, p.2)) :=
    ascSplits_block (x := [',', ' ']) (by decide) _
  have s1 : ascSplits (a ++ '"' :: ',' :: ' ' :: '"' ::
      (b ++ '"' :: ',' :: ' ' :: '"' :: (c ++ '"' :: tail))) =
      (a, ',' :: ' ' :: '"' :: (b ++ '"' :: ',' :: ' ' :: '"' :: (c ++ '"' :: tail))) ::
        (ascSplits (',' :: ' ' :: '"' :: (b ++ '"' :: ',' :: ' ' :: '"' :: (c ++ '"' :: tail)))).map
          (fun p => (a ++ '"' :: p.1, p.2)) :=
    ascSplits_block ha' _
  rw [ascSplits_quote_cons, s1, s2, s3, s4, s5]
  simp [List.map_cons, List.map_map, Function.comp]

/-- On a clean already-fixed call `createClaim("a", "b", "c", n)` every
group-1 candidate fails (the trailing `, n` sits between the last quote and
the parenthesis, where the pattern allows only whitespace), so the pattern
does not match at the start of the call. -/
theorem matchAt_mkFixedCall {a b c n : List Char} (ha : cleanArg a) (hb : cleanArg b)
    (hc : cleanArg c) (hn : cleanArg n) : matchAt (mkFixedCall a b c n) = none := by
  obtain ⟨hrun, htl⟩ := run_mkFixedCall ha hb hc hn
  have hnest : argsPrefix a b c ++ '"' :: ',' :: ' ' :: n =
      '"' :: (a ++ '"' :: ',' :: ' ' :: '"' ::
        (b ++ '"' :: ',' :: ' ' :: '"' :: (c ++ '"' :: (',' :: ' ' :: n)))) := by
    simp [argsPrefix]
  have htail : ∀ ch ∈ (',' :: ' ' :: n), ch ≠ '"' := by
    intro ch h
    simp only [List.mem_cons] at h
    rcases h with rfl | rfl | h
    · decide
    · decide
    · exact (hn ch h).1
  have hb' : ∀ ch ∈ b, ch ≠ '"' := fun ch h => (hb ch h).1
  have hc' : ∀ ch ∈ c, ch ≠ '"' := fun ch h => (hc ch h).1
  have m6 : matchAfterQuote ((',' :: ' ' :: n) ++ [')']) = none := by
    apply matchAfterQuote_no_quote
    intro ch h
    simp only [List.cons_append, List.mem_cons, List.mem_append, List.mem_singleton] at h
    rcases h with rfl | rfl | h | rfl | h
    · decide
    · decide
    · exact (hn ch h).1
    · decide
    · exact absurd h (List.not_mem_nil ch)
  have m5 : matchAfterQuote ((c ++ '"' :: (',' :: ' ' :: n)) ++ [')']) = none := by
    have he : (c ++ '"' :: (',' :: ' ' :: n)) ++ [')'] =
        c ++ '"' :: (',' :: (' ' :: (n ++ [')']))) := by simp
    rw [he]
    exact matchAfterQuote_comma hc'
  have m4 : matchAfterQuote ((',' :: ' ' :: '"' :: (c ++ '"' :: (',' :: ' ' :: n))) ++ [')']) =
      none := by
    have he : (',' :: ' ' :: '"' :: (c ++ '"' :: (',' :: ' ' :: n))) ++ [')'] =
        [',', ' '] ++ '"' :: (c ++ '"' :: ((',' :: ' ' :: n) ++ [')'])) := by simp
    rw [he]
    exact matchAfterQuote_inner (by decide) (fun ch h => (hc ch h).2.2.1)
  have m3 : matchAfterQuote
      ((b ++ '"' :: ',' :: ' ' :: '"' :: (c ++ '"' :: (',' :: ' ' :: n))) ++ [')']) = none := by
    have he : (b ++ '"' :: ',' :: ' ' :: '"' :: (c ++ '"' :: (',' :: ' ' :: n))) ++ [')'] =
        b ++ '"' :: (',' :: (' ' :: ('"' :: (c ++ '"' :: (',' :: (' ' :: (n ++ [')']))))))) := by
      simp
    rw [he]
    exact matchAfterQuote_comma hb'
  have m2 : matchAfterQuote
      ((',' :: ' ' :: '"' :: (b ++ '"' :: ',' :: ' ' :: '"' :: (c ++ '"' :: (',' :: ' ' :: n)))) ++
        [')']) = none := by
    have he : (',' :: ' ' :: '"' ::
          (b ++ '"' :: ',' :: ' ' :: '"' :: (c ++ '"' :: (',' :: ' ' :: n)))) ++ [')'] =
        [',', ' '] ++ '"' ::
          (b ++ '"' :: ((',' :: ' ' :: '"' :: (c ++ '"' :: (',' :: ' ' :: n))) ++ [')'])) := by
      simp
    rw [he]
    exact matchAfterQuote_inner (by decide) (fun ch h => (hb ch h).2.2.1)
  rw [mkFixedCall, matchAt_header, hrun, htl, hnest,
    ascSplits_args_chain ha hb hc _ htail]
  simp only [List.reverse_cons, List.reverse_nil, List.nil_append, List.cons_append,
    List.append_nil]
  simp only [tryGroup1, m6, m5, m4, m3, m2, List.cons_ne_nil, if_false, if_true,
    reduceCtorEq, ite_false, ite_true]

/-- On a clean unfixed call `createClaim("a", "b", "c")` the candidate at
the closing quote of `c` fails (group 2 would have to swallow the final
parenthesis), and the next candidate — the opening quote of `c` — succeeds,
matching the whole call with nothing left over. -/
theorem matchAt_mkCall {a b c : List Char} (ha : cleanArg a) (hb : cleanArg b)
    (hc : cleanArg c) : matchAt (mkCall a b c) = some (mkCall a b c, []) := by
  obtain ⟨hrun, htl⟩ := run_mkCall ha hb hc
  have hnest : argsPrefix a b c ++ ['"'] =
      '"' :: (a ++ '"' :: ',' :: ' ' :: '"' ::
        (b ++ '"' :: ',' :: ' ' :: '"' :: (c ++ '"' :: ([] : List Char)))) := by
    simp [argsPrefix]
  have hc' : ∀ ch ∈ c, ch ≠ '"' := fun ch h => (hc ch h).1
  have m6 : matchAfterQuote (([] : List Char) ++ [')']) = none := by
    apply matchAfterQuote_no_quote
    intro ch h
    simp only [List.nil_append, List.mem_singleton] at h
    subst h
    decide
  have m5 : matchAfterQuote ((c ++ '"' :: ([] : List Char)) ++ [')']) =
      some (c ++ ['"', ')'], []) := by
    have he : (c ++ '"' :: ([] : List Char)) ++ [')'] = c ++ '"' :: [')'] := by simp
    rw [he]
    exact matchAfterQuote_success hc'
  rw [mkCall, matchAt_header, hrun, htl, hnest,
    ascSplits_args_chain ha hb hc ([] : List Char) (by simp)]
  simp only [List.reverse_cons, List.reverse_nil, List.nil_append, List.cons_append,
    List.append_nil]
  simp only [tryGroup1, m6, m5, List.cons_ne_nil, if_false, ite_false, reduceCtorEq]
  simp [mkCall, argsPrefix]

/-! ## Scanning the full text of a clean call -/

theorem headerChars_eq :
    headerChars = ['c', 'r', 'e', 'a', 't', 'e', 'C', 'l', 'a', 'i', 'm', '('] := by decide

theorem startsWith_cons_false {c d : Char} {p s : List Char} (h : c ≠ d) :
    startsWith (c :: p) (d :: s) = false := by
  simp [startsWith, h]

theorem matchAt_none_of_no_header {s : List Char}
    (h : startsWith headerChars s = false) : matchAt s = none := by
  simp [matchAt, h]

theorem matchAt_none_of_no_paren {s : List Char} (h : '(' ∉ s) : matchAt s = none := by
  cases hsw : startsWith headerChars s with
  | false => exact matchAt_none_of_no_header hsw
  | true =>
    obtain ⟨t, rfl⟩ := startsWith_ex hsw
    exact absurd (by simp [headerChars]) h

/-- Decomposing a suffix of `x ++ y`: it is a suffix of `y`, or it is a
nonempty suffix of `x` followed by all of `y`. -/
theorem suffix_append_cases : ∀ {x y t : List Char}, t <:+ x ++ y →
    t <:+ y ∨ ∃ x', x' <:+ x ∧ x' ≠ [] ∧ t = x' ++ y := by
  intro x
  induction x with
  | nil => intro y t h; exact Or.inl h
  | cons d x ih =>
    intro y t h
    rcases List.suffix_cons_iff.mp h with rfl | h'
    · exact Or.inr ⟨d :: x, List.suffix_rfl, by simp, by simp⟩
    · rcases ih h' with h'' | ⟨x', hx', hne, rfl⟩
      · exact Or.inl h''
      · exact Or.inr ⟨x', hx'.trans (List.suffix_cons d x), hne, rfl⟩

/-- A proper nonempty suffix of the header literal never begins a match,
whatever follows: its first character differs from `c`. -/
theorem matchAt_proper_header_suffix {x' : List Char} (hx' : x' <:+ headerChars)
    (hne : x' ≠ []) (hfull : x' ≠ headerChars) (w : List Char) :
    matchAt (x' ++ w) = none := by
  rw [headerChars_eq] at hx' hfull
  apply matchAt_none_of_no_header
  rw [headerChars_eq]
  rcases List.suffix_cons_iff.mp hx' with rfl | hx'
  · exact absurd rfl hfull
  rcases List.suffix_cons_iff.mp hx' with rfl | hx'
  · exact startsWith_cons_false (by decide)
  rcases List.suffix_cons_iff.mp hx' with rfl | hx'
  · exact startsWith_cons_false (by decide)
  rcases List.suffix_cons_iff.mp hx' with rfl | hx'
  · exact startsWith_cons_false (by decide)
  rcases List.suffix_cons_iff.mp hx' with rfl | hx'
  · exact startsWith_cons_false (by decide)
  rcases List.suffix_cons_iff.mp hx' with rfl | hx'
  · exact startsWith_cons_false (by decide)
  rcases List.suffix_cons_iff.mp hx' with rfl | hx'
  · exact startsWith_cons_false (by decide)
  rcases List.suffix_cons_iff.mp hx' with rfl | hx'
  · exact startsWith_cons_false (by decide)
  rcases List.suffix_cons_iff.mp hx' with rfl | hx'
  · exact startsWith_cons_false (by decide)
  rcases List.suffix_cons_iff.mp hx' with rfl | hx'
  · exact startsWith_cons_false (by decide)
  rcases List.suffix_cons_iff.mp hx' with rfl | hx'
  · exact startsWith_cons_false (by decide)
  rcases List.suffix_cons_iff.mp hx' with rfl | hx'
  · exact startsWith_cons_false (by decide)
  rw [List.suffix_nil.mp hx'] at hne
  exact absurd rfl hne

/-- No opening parenthesis occurs after the header of a clean call body. -/
theorem argsPrefix_no_open {a b c : List Char} (ha : cleanArg a) (hb : cleanArg b)
    (hc : cleanArg c) : ∀ ch ∈ argsPrefix a b c, ch ≠ '(' := by
  intro ch h
  simp only [argsPrefix, List.mem_cons, List.mem_append] at h
  rcases h with rfl | h
  · decide
  rcases h with h | h
  · exact (ha ch h).2.1
  rcases h with rfl | h
  · decide
  rcases h with rfl | h
  · decide
  rcases h with rfl | h
  · decide
  rcases h with rfl | h
  · decide
  rcases h with h | h
  · exact (hb ch h).2.1
  rcases h with rfl | h
  · decide
  rcases h with rfl | h
  · decide
  rcases h with rfl | h
  · decide
  rcases h with rfl | h
  · decide
  exact (hc ch h).2.1

/-- The scan leaves a clean already-fixed call unchanged: no suffix of the
text matches the pattern. -/
theorem re_sub_mkFixedCall {a b c n : List Char} (ha : cleanArg a) (hb : cleanArg b)
    (hc : cleanArg c) (hn : cleanArg n) :
    re_sub (mkFixedCall a b c n) = mkFixedCall a b c n := by
  apply re_sub_of_no_match
  intro t ht
  rw [mkFixedCall] at ht
  rcases suffix_append_cases ht with hsuf | ⟨x', hx', hne, rfl⟩
  · apply matchAt_none_of_no_paren
    intro hmem
    have hmem' := hsuf.subset hmem
    simp only [List.mem_append, List.mem_cons, List.mem_singleton] at hmem'
    rcases hmem' with h | h
    · exact argsPrefix_no_open ha hb hc '(' h rfl
    rcases h with h | h
    · exact absurd h (by decide)
    rcases h with h | h
    · exact absurd h (by decide)
    rcases h with h | h
    · exact absurd h (by decide)
    rcases h with h | h
    · exact (hn '(' h).2.1 rfl
    rcases h with h | h
    · exact absurd h (by decide)
    · exact absurd h (List.not_mem_nil _)
  · by_cases hx : x' = headerChars
    · subst hx
      exact matchAt_mkFixedCall ha hb hc hn
    · exact matchAt_proper_header_suffix hx' hne hx _

/-- One pass rewrites a clean unfixed call into the fixed call with the
default numeral `0`. -/
theorem re_sub_mkCall {a b c : List Char} (ha : cleanArg a) (hb : cleanArg b)
    (hc : cleanArg c) : re_sub (mkCall a b c) = mkFixedCall a b c ['0'] := by
  have hcomma : (mkCall a b c).count ',' = 2 := by
    have hca : a.count ',' = 0 := by
      rw [List.count_eq_zero]
      intro hmem
      exact (ha ',' hmem).2.2.2 rfl
    have hcb : b.count ',' = 0 := by
      rw [List.count_eq_zero]
      intro hmem
      exact (hb ',' hmem).2.2.2 rfl
    have hcc : c.count ',' = 0 := by
      rw [List.count_eq_zero]
      intro hmem
      exact (hc ',' hmem).2.2.2 rfl
    rw [mkCall, argsPrefix, headerChars_eq]
    simp [List.count_append, List.count_cons, hca, hcb, hcc]
  rw [re_sub_match_step (matchAt_mkCall ha hb hc), replacer, if_pos hcomma]
  have hstruct : mkCall a b c = (headerChars ++ (argsPrefix a b c ++ ['"'])) ++ [')'] := by
    simp [mkCall]
  rw [hstruct, List.dropLast_concat]
  show (headerChars ++ (argsPrefix a b c ++ ['"'])) ++ [',', ' ', '0', ')'] ++ re_sub [] =
    mkFixedCall a b c ['0']
  simp [mkFixedCall, re_sub, re_sub_aux]

/-- Two passes on a clean unfixed call agree with one pass. -/
theorem re_sub_mkCall_idem {a b c : List Char} (ha : cleanArg a) (hb : cleanArg b)
    (hc : cleanArg c) : re_sub (re_sub (mkCall a b c)) = re_sub (mkCall a b c) := by
  rw [re_sub_mkCall ha hb hc]
  exact re_sub_mkFixedCall ha hb hc (by decide)

/-! ## Claim theorems -/

/-- C1: whenever the pattern matches a span containing exactly two commas,
the pass replaces the span's closing parenthesis by `, 0)` — the rewritten
span is the span minus its last character followed by `, 0)`, its comma
count becomes three, and the output of the pass around that match is the
rewritten span followed by the processed remainder; in particular
`createClaim("alice", "skillA", "proof1")` becomes
`createClaim("alice", "skillA", "proof1", 0)`. -/
theorem c1_two_comma_match_gains_default_arg :
    (∀ s m rest : List Char, matchAt s = some (m, rest) → m.count ',' = 2 →
      replacer m = m.dropLast ++ [',', ' ', '0', ')'] ∧
      (replacer m).count ',' = 3 ∧
      re_sub s = (m.dropLast ++ [',', ' ', '0', ')']) ++ re_sub rest) ∧
    (∀ a b c : List Char, cleanArg a → cleanArg b → cleanArg c →
      re_sub (mkCall a b c) = mkFixedCall a b c ['0']) ∧
    re_sub exampleUnfixed = exampleFixed0 := by
  refine ⟨?_, fun a b c ha hb hc => re_sub_mkCall ha hb hc, by decide⟩
  · intro s m rest hm hc
    obtain ⟨_, _, ⟨pre, ws, hstruct, _⟩, _⟩ := matchAt_some hm
    have hlast : m = (pre ++ '"' :: ws) ++ [')'] := by rw [hstruct]; simp
    have hrepl : replacer m = m.dropLast ++ [',', ' ', '0', ')'] := by
      rw [replacer, if_pos hc]
    have h1 : m.count ',' = m.dropLast.count ',' := by
      rw [hlast, List.dropLast_concat, List.count_append]
      simp
    refine ⟨hrepl, ?_, ?_⟩
    · rw [hrepl, List.count_append, ← h1, hc]
      decide
    · rw [re_sub_match_step hm, hrepl]

/-- Witness for C1 at the spec's example input, where the whole text is the
matched span and the remainder is empty. -/
theorem c1_two_comma_match_gains_default_arg_witness :
    (replacer exampleUnfixed = exampleUnfixed.dropLast ++ [',', ' ', '0', ')'] ∧
      (replacer exampleUnfixed).count ',' = 3 ∧
      re_sub exampleUnfixed = (exampleUnfixed.dropLast ++ [',', ' ', '0', ')']) ++ re_sub []) ∧
    re_sub (mkCall "alice".toList "skillA".toList "proof1".toList) =
      mkFixedCall "alice".toList "skillA".toList "proof1".toList ['0'] :=
  ⟨c1_two_comma_match_gains_default_arg.1 exampleUnfixed exampleUnfixed []
    (by decide) (by decide),
   c1_two_comma_match_gains_default_arg.2.1 "alice".toList "skillA".toList "proof1".toList
    (by decide) (by decide) (by decide)⟩

/-- C5: the arity guard — a matched span whose comma count differs from two
is returned unchanged by `replacer`, and the pass around such a match
reproduces the span verbatim in the output. -/
theorem c5_arity_guard_leaves_match_unchanged :
    (∀ m : List Char, m.count ',' ≠ 2 → replacer m = m) ∧
    (∀ s m rest : List Char, matchAt s = some (m, rest) → m.count ',' ≠ 2 →
      re_sub s = m ++ re_sub rest) := by
  constructor
  · intro m h
    rw [replacer, if_neg h]
  · intro s m rest hm h
    rw [re_sub_match_step hm, replacer, if_neg h]

/-- Witness for C5 at `createClaim(a,b,c,"d")`, a matched span with three
commas, which the guard leaves unchanged. -/
theorem c5_arity_guard_leaves_match_unchanged_witness :
    replacer "createClaim(a,b,c,\"d\")".toList = "createClaim(a,b,c,\"d\")".toList ∧
      re_sub "createClaim(a,b,c,\"d\")".toList =
        "createClaim(a,b,c,\"d\")".toList ++ re_sub [] :=
  ⟨c5_arity_guard_leaves_match_unchanged.1 "createClaim(a,b,c,\"d\")".toList (by decide),
   c5_arity_guard_leaves_match_unchanged.2 "createClaim(a,b,c,\"d\")".toList
     "createClaim(a,b,c,\"d\")".toList [] (by decide) (by decide)⟩

/-- C9: every matched span ends with a quote character, a whitespace run and
the closing parenthesis — so a call whose final argument before `)` is not a
double-quoted string literal is never a match; in particular
`createClaim(a, b, c)` and `createClaim("a", "b", 7)` are left unchanged. -/
theorem c9_last_argument_must_be_quoted_string :
    (∀ s m rest : List Char, matchAt s = some (m, rest) →
      ∃ pre ws, m = pre ++ '"' :: (ws ++ [')']) ∧ ∀ ch ∈ ws, isSpaceCh ch) ∧
    re_sub "createClaim(a, b, c)".toList = "createClaim(a, b, c)".toList ∧
    re_sub "createClaim(\"a\", \"b\", 7)".toList = "createClaim(\"a\", \"b\", 7)".toList := by
  refine ⟨?_, by decide, by decide⟩
  intro s m rest h
  exact (matchAt_some h).2.2.1

/-- Witness for C9 at the spec's example input. -/
theorem c9_last_argument_must_be_quoted_string_witness :
    ∃ pre ws, exampleUnfixed = pre ++ '"' :: (ws ++ [')']) ∧ ∀ ch ∈ ws, isSpaceCh ch :=
  c9_last_argument_must_be_quoted_string.1 exampleUnfixed exampleUnfixed [] (by decide)

/-- Counterexample to C2 as stated: the text
`createClaim("a", "b,\" )x", 5)` contains a createClaim call that already
carries a trailing numeric argument (`, 5` before its closing parenthesis),
yet the call is not skipped — the scan matches a span ending at the `)`
inside the escaped string argument (where the lookahead sees `x`, not a
comma and digits) and rewrites the call's interior. -/
theorem c2_counterexample_trailing_numeric_call_rewritten :
    re_sub "createClaim(\"a\", \"b,\\\" )x\", 5)".toList ≠
        "createClaim(\"a\", \"b,\\\" )x\", 5)".toList ∧
      re_sub "createClaim(\"a\", \"b,\\\" )x\", 5)".toList =
        "createClaim(\"a\", \"b,\\\" , 0)x\", 5)".toList := by
  constructor
  · decide
  · decide

/-- C2 (amended): the negative lookahead does exclude every match whose
closing parenthesis is immediately followed (after optional whitespace) by a
comma and (after optional whitespace) a digit — no successful match is ever
followed by such a trailing numeric continuation; and a call that already
carries a trailing numeric argument and whose arguments are free of quote,
parenthesis and comma characters is skipped (by the pattern's
quote-whitespace-parenthesis requirement rather than by the lookahead
alone). -/
theorem c2_lookahead_exclusion_and_clean_skip :
    (∀ s m rest : List Char, matchAt s = some (m, rest) → lookaheadNum rest = false) ∧
    (∀ a b c n : List Char, cleanArg a → cleanArg b → cleanArg c → cleanArg n →
      re_sub (mkFixedCall a b c n) = mkFixedCall a b c n) := by
  constructor
  · intro s m rest h
    exact (matchAt_some h).2.2.2
  · intro a b c n ha hb hc hn
    exact re_sub_mkFixedCall ha hb hc hn

/-- Witness for C2 (amended): a concrete match's remainder passes the
lookahead, and a concrete already-fixed call is skipped. -/
theorem c2_lookahead_exclusion_and_clean_skip_witness :
    lookaheadNum [] = false ∧
    re_sub (mkFixedCall "bob".toList "skillB".toList "proofB".toList ['7']) =
      mkFixedCall "bob".toList "skillB".toList "proofB".toList ['7'] :=
  ⟨c2_lookahead_exclusion_and_clean_skip.1 exampleUnfixed exampleUnfixed [] (by decide),
   c2_lookahead_exclusion_and_clean_skip.2 "bob".toList "skillB".toList "proofB".toList ['7']
    (by decide) (by decide) (by decide) (by decide)⟩

/-- Counterexample to C3 as stated: the call
`createClaim("a,b", "c\")", 5)` has a trailing comma and numeric literal
before its closing parenthesis, but the pass does not leave it byte-for-byte
unchanged — the escaped quote makes the pattern match a span ending at the
`)` inside the third string argument, and `, 0` is inserted there. -/
theorem c3_counterexample_already_fixed_call_changed :
    re_sub "createClaim(\"a,b\", \"c\\\")\", 5)".toList ≠
        "createClaim(\"a,b\", \"c\\\")\", 5)".toList ∧
      re_sub "createClaim(\"a,b\", \"c\\\")\", 5)".toList =
        "createClaim(\"a,b\", \"c\\\", 0)\", 5)".toList := by
  constructor
  · decide
  · decide

/-- C3 (amended): a call that already has a trailing comma and numeric
literal before its closing parenthesis is left byte-for-byte unchanged
provided its argument texts contain no quote, parenthesis or comma
characters; in particular `createClaim("alice", "skillA", "proof1", 5)` is
output unchanged. -/
theorem c3_clean_already_fixed_unchanged :
    (∀ a b c n : List Char, cleanArg a → cleanArg b → cleanArg c → cleanArg n →
      re_sub (mkFixedCall a b c n) = mkFixedCall a b c n) ∧
    re_sub exampleFixed5 = exampleFixed5 := by
  constructor
  · intro a b c n ha hb hc hn
    exact re_sub_mkFixedCall ha hb hc hn
  · decide

/-- Witness for C3 (amended) at the spec's already-fixed example, built from
the symbolic shape. -/
theorem c3_clean_already_fixed_unchanged_witness :
    re_sub (mkFixedCall "alice".toList "skillA".toList "proof1".toList ['5']) =
      mkFixedCall "alice".toList "skillA".toList "proof1".toList ['5'] :=
  c3_clean_already_fixed_unchanged.1 "alice".toList "skillA".toList "proof1".toList ['5']
    (by decide) (by decide) (by decide) (by decide)

/-- Counterexample to C4 as stated: on
`createClaim(,,"createClaim("x")")` the first pass matches the whole text
(two commas) and appends `, 0`, and the second pass then matches a shorter
span inside the rewritten text and changes it again, so two passes differ
from one. -/
theorem c4_counterexample_not_idempotent :
    re_sub (re_sub "createClaim(,,\"createClaim(\"x\")\")".toList) ≠
        re_sub "createClaim(,,\"createClaim(\"x\")\")".toList ∧
      re_sub "createClaim(,,\"createClaim(\"x\")\")".toList =
        "createClaim(,,\"createClaim(\"x\")\", 0)".toList ∧
      re_sub "createClaim(,,\"createClaim(\"x\")\", 0)".toList =
        "createClaim(,,\"createClaim(\"x\", 0)\", 0)".toList := by
  refine ⟨by decide, by decide, by decide⟩

/-- C4 (amended): the per-file rewrite is idempotent on call texts whose
argument texts are free of quote, parenthesis and comma characters — one
pass turns such a call into its fixed form and a second pass leaves that
fixed form untouched; in particular re-running on the spec's examples makes
no further change. -/
theorem c4_idempotent_on_clean_calls :
    (∀ a b c : List Char, cleanArg a → cleanArg b → cleanArg c →
      re_sub (mkCall a b c) = mkFixedCall a b c ['0'] ∧
      re_sub (re_sub (mkCall a b c)) = re_sub (mkCall a b c)) ∧
    re_sub (re_sub exampleUnfixed) = re_sub exampleUnfixed ∧
    re_sub (re_sub exampleFixed5) = re_sub exampleFixed5 := by
  refine ⟨fun a b c ha hb hc => ⟨re_sub_mkCall ha hb hc, re_sub_mkCall_idem ha hb hc⟩,
    by decide, by decide⟩

/-- Witness for C4 (amended) at the spec's example arguments. -/
theorem c4_idempotent_on_clean_calls_witness :
    re_sub (mkCall "alice".toList "skillA".toList "proof1".toList) =
        mkFixedCall "alice".toList "skillA".toList "proof1".toList ['0'] ∧
      re_sub (re_sub (mkCall "alice".toList "skillA".toList "proof1".toList)) =
        re_sub (mkCall "alice".toList "skillA".toList "proof1".toList) :=
  c4_idempotent_on_clean_calls.1 "alice".toList "skillA".toList "proof1".toList
    (by decide) (by decide) (by decide)

/-- C6: conditional write-back — for an existing file, when the substitution
leaves the content unchanged the filesystem is returned untouched with flag
`false` (and the run logs the `noChanges` outcome for that path); the file
is overwritten, with flag `true`, exactly when the content differs. -/
theorem c6_write_back_only_when_changed (fs : FS) (p : Path) (c : List Char)
    (h : fs p = some c) :
    (re_sub c = c → fix_createclaim_in_file fs p = (fs, false)) ∧
    (re_sub c ≠ c →
      fix_createclaim_in_file fs p = (writeFile fs p (re_sub c), true)) ∧
    (∀ ps : List Path, re_sub c = c →
      processPaths fs (p :: ps) =
        ((processPaths fs ps).1, Msg.noChanges p :: (processPaths fs ps).2.1,
          (processPaths fs ps).2.2)) := by
  refine ⟨?_, ?_, ?_⟩
  · intro hc
    simp [fix_createclaim_in_file, h, hc]
  · intro hc
    simp [fix_createclaim_in_file, h, hc]
  · intro ps hc
    simp [processPaths, fix_createclaim_in_file, h, hc]

/-- Witness for C6 on a one-file filesystem whose content is already fixed
(the unchanged case) and on one whose content the pass rewrites. -/
theorem c6_write_back_only_when_changed_witness :
    (fix_createclaim_in_file (fun q => if q = ("a.sol" : String) then some exampleFixed5 else none)
        ("a.sol" : String) =
      ((fun q => if q = ("a.sol" : String) then some exampleFixed5 else none), false)) ∧
    (fix_createclaim_in_file (fun q => if q = ("b.sol" : String) then some exampleUnfixed else none)
        ("b.sol" : String) =
      (writeFile (fun q => if q = ("b.sol" : String) then some exampleUnfixed else none)
        ("b.sol" : String) (re_sub exampleUnfixed), true)) :=
  ⟨(c6_write_back_only_when_changed
      (fun q => if q = ("a.sol" : String) then some exampleFixed5 else none)
      ("a.sol" : String) exampleFixed5 (by simp)).1 (by decide),
   ((c6_write_back_only_when_changed
      (fun q => if q = ("b.sol" : String) then some exampleUnfixed else none)
      ("b.sol" : String) exampleUnfixed (by simp)).2.1 (by decide))⟩

/-- C7: a listed path that does not exist yields a `notFound` warning, the
filesystem is passed on unread and unwritten, and the remaining paths are
processed in order on that same filesystem. -/
theorem c7_missing_path_warns_and_continues (fs : FS) (p : Path) (ps : List Path)
    (h : fs p = none) :
    processPaths fs (p :: ps) =
      ((processPaths fs ps).1, Msg.notFound p :: (processPaths fs ps).2.1,
        (processPaths fs ps).2.2) := by
  simp [processPaths, h]

/-- Witness for C7 on the empty filesystem. -/
theorem c7_missing_path_warns_and_continues_witness :
    processPaths (fun _ => none) (("a.sol" : String) :: [("b.sol" : String)]) =
      ((processPaths (fun _ => none) [("b.sol" : String)]).1,
        Msg.notFound ("a.sol" : String) ::
          (processPaths (fun _ => none) [("b.sol" : String)]).2.1,
        (processPaths (fun _ => none) [("b.sol" : String)]).2.2) :=
  c7_missing_path_warns_and_continues (fun _ => none) ("a.sol" : String)
    [("b.sol" : String)] rfl

/-- C8: the count returned by the loop equals the number of `fixed` reports
in its log — i.e. the number of files actually overwritten — and `main`'s
final summary message carries exactly that count. -/
theorem c8_summary_counts_modified_files :
    (∀ (fs : FS) (paths : List Path),
      (processPaths fs paths).2.2 =
        ((processPaths fs paths).2.1.filter Msg.isFixed).length) ∧
    (∀ fs : FS,
      (main fs).2.1.getLast? = some (Msg.summary (main fs).2.2) ∧
      (main fs).2.2 = ((main fs).2.1.filter Msg.isFixed).length) := by
  have key : ∀ (paths : List Path) (fs : FS),
      (processPaths fs paths).2.2 =
        ((processPaths fs paths).2.1.filter Msg.isFixed).length := by
    intro paths
    induction paths with
    | nil => intro fs; rfl
    | cons p ps ih =>
      intro fs
      cases hp : fs p with
      | some c =>
        cases hflag : (fix_createclaim_in_file fs p).2 with
        | true =>
          simp [processPaths, hp, hflag, Msg.isFixed, ih]
          omega
        | false =>
          simp [processPaths, hp, hflag, Msg.isFixed, ih]
      | none =>
        simp [processPaths, hp, Msg.isFixed, ih]
  refine ⟨fun fs paths => key paths fs, fun fs => ⟨?_, ?_⟩⟩
  · simp [main, List.getLast?_concat]
  · have hsum : (List.filter Msg.isFixed [Msg.summary (processPaths fs test_files).2.2]) = [] := by
      simp [Msg.isFixed]
    simp [main, List.filter_append, hsum, key test_files fs, Msg.isFixed]

/-- C10: determinism / purity — for any two runs on any two filesystems, if
the file contents agree then the resulting content at that path and the
changed-verdict agree, and both equal the substitution image of the content;
nothing besides the file's own text influences the per-file outcome. -/
theorem c10_per_file_rewrite_is_pure (fs1 fs2 : FS) (p1 p2 : Path) (c : List Char)
    (h1 : fs1 p1 = some c) (h2 : fs2 p2 = some c) :
    (fix_createclaim_in_file fs1 p1).1 p1 = (fix_createclaim_in_file fs2 p2).1 p2 ∧
    (fix_createclaim_in_file fs1 p1).2 = (fix_createclaim_in_file fs2 p2).2 ∧
    (fix_createclaim_in_file fs1 p1).1 p1 = some (re_sub c) := by
  have key : ∀ (fs : FS) (p : Path), fs p = some c →
      (fix_createclaim_in_file fs p).1 p = some (re_sub c) ∧
      (fix_createclaim_in_file fs p).2 = decide (re_sub c ≠ c) := by
    intro fs p h
    by_cases hc : re_sub c = c
    · constructor
      · simp [fix_createclaim_in_file, h, hc]
      · simp [fix_createclaim_in_file, h, hc]
    · constructor
      · simp [fix_createclaim_in_file, h, hc, writeFile]
      · simp [fix_createclaim_in_file, h, hc]
  obtain ⟨ka, kb⟩ := key fs1 p1 h1
  obtain ⟨kc, kd⟩ := key fs2 p2 h2
  exact ⟨ka.trans kc.symm, kb.trans kd.symm, ka⟩

/-- Witness for C10: two one-file filesystems holding the same content under
different paths produce the same rewritten content and the same verdict. -/
theorem c10_per_file_rewrite_is_pure_witness :
    (fix_createclaim_in_file (fun q => if q = ("a.sol" : String) then some exampleUnfixed else none)
          ("a.sol" : String)).1 ("a.sol" : String) =
      (fix_createclaim_in_file (fun q => if q = ("b.sol" : String) then some exampleUnfixed else none)
          ("b.sol" : String)).1 ("b.sol" : String) ∧
    (fix_createclaim_in_file (fun q => if q = ("a.sol" : String) then some exampleUnfixed else none)
          ("a.sol" : String)).2 =
      (fix_createclaim_in_file (fun q => if q = ("b.sol" : String) then some exampleUnfixed else none)
          ("b.sol" : String)).2 ∧
    (fix_createclaim_in_file (fun q => if q = ("a.sol" : String) then some exampleUnfixed else none)
          ("a.sol" : String)).1 ("a.sol" : String) = some (re_sub exampleUnfixed) :=
  c10_per_file_rewrite_is_pure
    (fun q => if q = ("a.sol" : String) then some exampleUnfixed else none)
    (fun q => if q = ("b.sol" : String) then some exampleUnfixed else none)
    ("a.sol" : String) ("b.sol" : String) exampleUnfixed (by simp) (by simp)

end Aureus
